import Mathlib

/-!
Verification of the linkedin-parser repository against its specification.

The development shallowly embeds the Python sources:
  * `selenium_manager.py` — credential check, `login` retry loop,
    `_parse_follower_text`, `get_followers` retry loop, `close`;
  * `main.py` — `parse_linkedin_jobs` over a DOM model of BeautifulSoup;
  * the PaginationController (`fetchListings`) described in the spec,
    which has no source under `src/` and is modelled from the spec.

Python exceptions are embedded as `Except PyExc`; Python `float` is embedded
as the IEEE-754 binary64 values it really holds: a decimal string denotes the
exact rational it spells, rounded to the nearest double (ties to even, with
gradual underflow to subnormals and zero), literals at or beyond
2^1024 - 2^970 and `float("inf")` producing an infinite value whose `int()`
conversion raises `OverflowError`; the product `number * multiplier` is
rounded the same way, exactly as the hardware multiply is.
Browser interaction is embedded as an environment giving each attempt's
outcome, and side effects are recorded in an event trace.
-/

/-- Embedded Python exception values (all subclasses of `Exception`). -/
inductive PyExc where
  | valueError
  | overflowError
  | keyError (k : String)
  | timeoutException
  | other (msg : String)
deriving DecidableEq, Repr

/-- Does an `Except` computation finish without raising? -/
def exceptIsOk {ε α : Type} : Except ε α → Bool
  | .ok _ => true
  | .error _ => false

/-- ASCII decimal digit test (Python `float` accepts ASCII digits). -/
def isDigitChar (c : Char) : Bool := 48 ≤ c.toNat && c.toNat ≤ 57

/-- Characters stripped by Python `str.strip()` (ASCII whitespace). -/
def isPyWhite (c : Char) : Bool :=
  c.toNat = 32 || c.toNat = 9 || c.toNat = 10 || c.toNat = 13 ||
  c.toNat = 11 || c.toNat = 12

/-- Python `str.lower` on one ASCII character. -/
def pyLowerChar (c : Char) : Char :=
  if 65 ≤ c.toNat && c.toNat ≤ 90 then Char.ofNat (c.toNat + 32) else c

/-- Python `str.lower` (ASCII fragment). -/
def pyLower (s : List Char) : List Char := s.map pyLowerChar

/-- Python `str.strip()`: drop leading and trailing whitespace. -/
def pyStrip (s : List Char) : List Char :=
  ((s.dropWhile isPyWhite).reverse.dropWhile isPyWhite).reverse

/-- Python `str.replace(pat, rep)`: replace every non-overlapping occurrence,
scanning left to right.  `fuel` bounds the recursion; `fuel = s.length`
suffices whenever `pat` is nonempty, because each step consumes at least one
input character. -/
def pyReplaceGo (pat rep : List Char) : ℕ → List Char → List Char
  | 0, s => s
  | _ + 1, [] => []
  | fuel + 1, c :: rest =>
    if pat.isPrefixOf (c :: rest) then
      rep ++ pyReplaceGo pat rep fuel ((c :: rest).drop pat.length)
    else
      c :: pyReplaceGo pat rep fuel rest

/-- Python `s.replace(pat, rep)` (the sources only call it with nonempty
patterns and an empty replacement). -/
def pyReplace (s pat rep : List Char) : List Char :=
  if pat.isEmpty then s else pyReplaceGo pat rep s.length s

/-- A Python `float` value: an exact finite rational, an infinity, or NaN. -/
inductive PyFloat where
  | finite (q : ℚ)
  | inf
  | neginf
  | nan
deriving DecidableEq, Repr

/-- Smallest magnitude at which rounding to an IEEE-754 double overflows to
infinity: 2^1024 - 2^970 (half way between the largest finite double and
2^1024; round-to-nearest-even sends it up).  Written as a literal so that
proofs can evaluate it; `flOverflowNat_eq_pow` below checks the value. -/
def flOverflowNat : ℕ := 179769313486231580793728971405303415079934132710037826936173778980444968292764750946649017977587207096330286416692887910946555547851940402630657488671505820681908902000708383676273854845817711531764475730270069855571366959622842914819860834936475292719074168444365510704342711559699508093042880177904174497792

/-- The overflow threshold as an exact rational. -/
def flOverflow : ℚ := mkRat ((flOverflowNat : ℤ)) 1

/-- `2 ^ 1024`, the first power of two beyond the double range, as a literal
(`pow2_1024_eq` below checks it). -/
def pow2_1024 : ℕ := 179769313486231590772930519078902473361797697894230657273430081157732675805500963132708477322407536021120113879871393357658789768814416622492847430639474124377767893424865485276302219601246094119453082952085005768838150682342462881473913110540827237163350510684586298239947245938479716304835356329624224137216

/-- Number of binary digits of `n` (0 for 0), by fuelled halving; the fuel
`n` itself always suffices. -/
def bitlenGo : ℕ → ℕ → ℕ
  | 0, _ => 0
  | fuel + 1, n => if n = 0 then 0 else bitlenGo fuel (n / 2) + 1

/-- `bitlen n` is the least `b` with `n < 2 ^ b`. -/
def bitlen (n : ℕ) : ℕ := bitlenGo n n

/-- `⌊log₂ (n / d)⌋` for positive naturals: the bit lengths bracket the
quotient within a factor of two, one comparison settles it. -/
def floorLog2 (n d : ℕ) : ℤ :=
  let e0 : ℤ := (bitlen n : ℤ) - (bitlen d : ℤ)
  if 0 ≤ e0 then (if d * 2 ^ e0.toNat ≤ n then e0 else e0 - 1)
  else (if d ≤ n * 2 ^ (-e0).toNat then e0 else e0 - 1)

/-- Round `N / D` to the nearest integer, ties to even. -/
def roundMantissa (N D : ℕ) : ℕ :=
  let m0 := N / D
  let r := N % D
  if D < 2 * r ∨ (2 * r = D ∧ m0 % 2 = 1) then m0 + 1 else m0

/-- The dyadic rational `± m * 2 ^ u` as an exact `ℚ`. -/
def dyadicQ (neg : Bool) (m : ℕ) (u : ℤ) : ℚ :=
  let n : ℤ := if neg then -(m : ℤ) else (m : ℤ)
  if 0 ≤ u then mkRat (n * ((2 : ℕ) ^ u.toNat : ℕ)) 1
  else mkRat n ((2 : ℕ) ^ (-u).toNat)

/-- Round an exact rational to the nearest IEEE-754 binary64 value: 53-bit
mantissa for normal magnitudes, a fixed `2 ^ (-1074)` unit for subnormals
(gradual underflow to zero), ties to even, values reaching `2 ^ 1024` after
rounding overflowing to infinity — the rounding CPython's `float` performs
both on decimal conversion and on arithmetic. -/
def roundDouble (q : ℚ) : PyFloat :=
  let neg := decide (q.num < 0)
  let n := q.num.natAbs
  let d := q.den
  if n = 0 then .finite 0
  else
    let e := floorLog2 n d
    let u : ℤ := if e - 52 ≤ -1074 then -1074 else e - 52
    let m := if 0 ≤ u then roundMantissa n (d * 2 ^ u.toNat)
             else roundMantissa (n * 2 ^ (-u).toNat) d
    if m = 0 then .finite 0
    else if 0 ≤ u ∧ pow2_1024 ≤ m * 2 ^ u.toNat then
      (if neg then .neginf else .inf)
    else .finite (dyadicQ neg m u)

/-- Numeric value of a digit list (most significant first). -/
def digitsVal (ds : List Char) : ℕ :=
  ds.foldl (fun a c => 10 * a + (c.toNat - 48)) 0

/-- Consume a maximal run of digits after an initial digit, allowing single
underscores between digits (PEP 515); returns the digits (underscores
removed) and the unconsumed rest. -/
def udigitsAfter : List Char → List Char × List Char
  | [] => ([], [])
  | c :: rest =>
    if isDigitChar c then
      let p := udigitsAfter rest
      (c :: p.1, p.2)
    else if c = '_' then
      match rest with
      | d :: rest2 =>
        if isDigitChar d then
          let p := udigitsAfter rest2
          (d :: p.1, p.2)
        else ([], c :: rest)
      | [] => ([], [c])
    else ([], c :: rest)

/-- Consume a digit run with underscores; empty if the first character is not
a digit. -/
def udigits : List Char → List Char × List Char
  | [] => ([], [])
  | c :: rest =>
    if isDigitChar c then
      let p := udigitsAfter rest
      (c :: p.1, p.2)
    else ([], c :: rest)

/-- Consume an optional sign; returns whether the value is negated. -/
def parseSign : List Char → Bool × List Char
  | '-' :: r => (true, r)
  | '+' :: r => (false, r)
  | s => (false, s)

/-- Parse the unsigned numeric body of a Python float literal:
`digits [. digits] [e [sign] digits]`, at least one digit in the mantissa,
the whole input consumed.  Returns the mantissa digits' value `m` and the
decimal shift `sh`, denoting `m * 10 ^ sh`. -/
def parseDecimalParts (s : List Char) : Option (ℕ × ℤ) :=
  let p1 := udigits s
  let fr : List Char × List Char :=
    match p1.2 with
    | '.' :: r => udigits r
    | _ => ([], p1.2)
  if p1.1 = [] ∧ fr.1 = [] then none
  else
    let er : Option ℤ × List Char :=
      match fr.2 with
      | 'e' :: r =>
        let ps := parseSign r
        let pd := udigits ps.2
        if pd.1 = [] then (none, fr.2)
        else
          (some (if ps.1 then -(digitsVal pd.1 : ℤ) else (digitsVal pd.1 : ℤ)),
           pd.2)
      | _ => (none, fr.2)
    if er.2 = [] then
      some (digitsVal (p1.1 ++ fr.1), er.1.getD 0 - (fr.1.length : ℤ))
    else none

/-- Exact rational denoted by a parsed decimal: `± m * 10 ^ sh`. -/
def decValue (neg : Bool) (m : ℕ) (sh : ℤ) : ℚ :=
  let n : ℤ := if neg then -(m : ℤ) else (m : ℤ)
  if sh < 0 then mkRat n ((10 : ℕ) ^ (-sh).toNat)
  else mkRat (n * (((10 : ℕ) ^ sh.toNat : ℕ) : ℤ)) 1

/-- Python `float(s)` on a string: strip whitespace, case-insensitive match of
`inf`/`infinity`/`nan`, or a decimal literal correctly rounded to the nearest
double (CPython's conversion is correctly rounded); `none` models
`ValueError`.  Literals at or beyond `2 ^ 1024 - 2 ^ 970` become
infinities. -/
def pyFloatOfString (s : List Char) : Option PyFloat :=
  let t := pyStrip (pyLower s)
  let sg := parseSign t
  let r := sg.2
  if r = ['i', 'n', 'f'] ∨ r = ['i', 'n', 'f', 'i', 'n', 'i', 't', 'y'] then
    some (if sg.1 then .neginf else .inf)
  else if r = ['n', 'a', 'n'] then some .nan
  else
    match parseDecimalParts r with
    | none => none
    | some (m, sh) => some (roundDouble (decValue sg.1 m sh))

/-- Python `f * k` for a float `f` and a positive integer `k` (the
multiplication in `int(number * multiplier)`): the exact product rounded to
the nearest double, overflowing to an infinity, as the IEEE multiplication
performs (`k` is 1, 1000 or 1000000, always exactly representable). -/
def pyMulPos (f : PyFloat) (k : ℕ) : PyFloat :=
  match f with
  | .finite q => roundDouble (mkRat (q.num * (k : ℤ)) q.den)
  | x => x

/-- Truncation toward zero of an exact rational, as Python `int()` applied to
a finite float. -/
def ratTrunc (q : ℚ) : ℤ :=
  if q.num < 0 then -(((-q.num).toNat / q.den : ℕ) : ℤ)
  else ((q.num.toNat / q.den : ℕ) : ℤ)

/-- Python `int()` on a float: truncation when finite, `OverflowError` on an
infinity, `ValueError` on NaN. -/
def pyIntOfFloat : PyFloat → Except PyExc ℤ
  | .finite q => .ok (ratTrunc q)
  | .inf => .error .overflowError
  | .neginf => .error .overflowError
  | .nan => .error .valueError

/-- The `int(...)` conversion wrapped in the method's `try/except
ValueError`: a caught `ValueError` (from `int(nan)`) yields `None`, an
`OverflowError` escapes. -/
def pyIntCaught (f : PyFloat) : Except PyExc (Option ℤ) :=
  match pyIntOfFloat f with
  | .ok n => .ok (some n)
  | .error .valueError => .ok none
  | .error e => .error e

/-- The multiplier and remaining text chosen by `_parse_follower_text` after
normalisation: 1000 when a `k` is present, 1000000 when an `m` is present
(`k` checked first), 1 otherwise; the suffix letters are removed. -/
def followerMultSplit (t : List Char) : ℕ × List Char :=
  if t.contains 'k' then (1000, pyReplace t ['k'] [])
  else if t.contains 'm' then (1000000, pyReplace t ['m'] [])
  else (1, t)

/-- Normalised remainder of `_parse_follower_text`: lowercase, remove the
word `followers`, strip, remove commas. -/
def followerRemainder (s : List Char) : List Char :=
  pyReplace (pyStrip (pyReplace (pyLower s) "followers".data [])) [','] []

/-- The scaled float value `number * multiplier` computed by
`_parse_follower_text` before the `int()` conversion, when `float()`
succeeds. -/
def followerScaled (s : String) : Option PyFloat :=
  let t := followerRemainder s.data
  let ms := followerMultSplit t
  (pyFloatOfString ms.2).map (fun f => pyMulPos f ms.1)

/-- Embedding of `SeleniumManager._parse_follower_text` (selenium_manager.py,
lines 76-95).  `.ok none` is Python `None` (the `except ValueError` branch or
the caught `int(nan)`); `.error e` is an uncaught exception escaping the
method. -/
def parse_follower_text (s : String) : Except PyExc (Option ℤ) :=
  let t := followerRemainder s.data
  let ms := followerMultSplit t
  match pyFloatOfString ms.2 with
  | none => .ok none
  | some f =>
    match pyIntOfFloat (pyMulPos f ms.1) with
    | .ok n => .ok (some n)
    | .error .valueError => .ok none
    | .error e => .error e

/-- Decidable equality for `Except`, used to state and decide concrete
evaluations of the embedded fallible functions. -/
instance {ε α : Type} [DecidableEq ε] [DecidableEq α] : DecidableEq (Except ε α)
  | .ok a, .ok b =>
    if h : a = b then .isTrue (by rw [h])
    else .isFalse (by intro hc; cases hc; exact h rfl)
  | .error a, .error b =>
    if h : a = b then .isTrue (by rw [h])
    else .isFalse (by intro hc; cases hc; exact h rfl)
  | .ok _, .error _ => .isFalse (by intro hc; cases hc)
  | .error _, .ok _ => .isFalse (by intro hc; cases hc)

/-- A document node, as produced by BeautifulSoup's `html.parser`: an element
with a tag name, attributes and children, or a navigable string. -/
inductive Node where
  | elem (tag : String) (attrs : List (String × String)) (children : List Node)
  | text (s : String)
deriving Repr

/-- Children of a node (a navigable string has none). -/
def childrenOf : Node → List Node
  | .elem _ _ cs => cs
  | .text _ => []

/-- Attribute access `tag.get(k)`: the first binding of `k`, if any. -/
def getAttr (n : Node) (k : String) : Option String :=
  match n with
  | .elem _ attrs _ => attrs.lookup k
  | .text _ => none

/-- Python truthiness of a BeautifulSoup element: a `Tag` defines `__len__`
as its number of children, so an element is truthy iff it has children; a
`NavigableString` is truthy iff nonempty. -/
def tagTruthy : Node → Bool
  | .elem _ _ cs => !cs.isEmpty
  | .text s => !(s == "")

/-- Split a character list on whitespace runs, dropping empties (Python
`str.split()` with no argument, as BeautifulSoup splits `class`). -/
def splitWSGo : List Char → List Char → List (List Char)
  | [], acc => if acc = [] then [] else [acc.reverse]
  | c :: rest, acc =>
    if isPyWhite c then
      (if acc = [] then splitWSGo rest [] else acc.reverse :: splitWSGo rest [])
    else splitWSGo rest (c :: acc)

/-- Does the node's `class` attribute, split on whitespace, contain `cls`?
This is BeautifulSoup's `class_=cls` matching. -/
def hasClass (n : Node) (cls : String) : Bool :=
  match getAttr n "class" with
  | some v => (splitWSGo v.data []).contains cls.data
  | none => false

/-- Matcher for `find`/`find_all(tag, class_=cls)`. -/
def isTagClass (tag cls : String) (n : Node) : Bool :=
  match n with
  | .elem t _ _ => t == tag && hasClass n cls
  | .text _ => false

/-- Matcher for `find(tag)`. -/
def isTag (tag : String) (n : Node) : Bool :=
  match n with
  | .elem t _ _ => t == tag
  | .text _ => false

/-- All matching descendants in document order (pre-order: a node before its
descendants, descendants before later siblings), as `find_all` traverses. -/
def findAllIn (p : Node → Bool) : List Node → List Node
  | [] => []
  | .text s :: rest =>
    (if p (.text s) then [.text s] else []) ++ findAllIn p rest
  | .elem t a cs :: rest =>
    (if p (.elem t a cs) then [.elem t a cs] else []) ++
      findAllIn p cs ++ findAllIn p rest

/-- BeautifulSoup `find`: first match in document order, if any. -/
def findFirstIn (p : Node → Bool) (ns : List Node) : Option Node :=
  (findAllIn p ns).head?

/-- All descendant strings in document order. -/
def nodeTextsList : List Node → List String
  | [] => []
  | .text s :: rest => s :: nodeTextsList rest
  | .elem _ _ cs :: rest => nodeTextsList cs ++ nodeTextsList rest

/-- `tag.get_text(strip=True)`: concatenation of the stripped descendant
strings. -/
def getTextStrip (n : Node) : String :=
  String.mk (List.flatten ((nodeTextsList (childrenOf n)).map
    (fun s => pyStrip s.data)))

/-- `tag.get_text()`: concatenation of the descendant strings. -/
def getTextRaw (n : Node) : String :=
  String.mk (List.flatten ((nodeTextsList (childrenOf n)).map String.data))

/-- One extracted job record (`JobData` in main.py): every field optional. -/
structure JobData where
  title : Option String
  company : Option String
  location : Option String
  url : Option String
  date_posted_text : Option String
  date_posted_iso : Option String
  company_logo_url : Option String
deriving DecidableEq, Repr

/-- main.py lines 36-37: job title from `h3.base-search-card__title`. -/
def extractTitle (cs : List Node) : Option String :=
  match findFirstIn (isTagClass "h3" "base-search-card__title") cs with
  | some el => if tagTruthy el then some (getTextStrip el) else none
  | none => none

/-- main.py lines 40-43: company from the `a` inside
`h4.base-search-card__subtitle`. -/
def extractCompany (cs : List Node) : Option String :=
  match findFirstIn (isTagClass "h4" "base-search-card__subtitle") cs with
  | some el =>
    if tagTruthy el then
      match findFirstIn (isTag "a") (childrenOf el) with
      | some a => if tagTruthy a then some (getTextStrip a) else none
      | none => none
    else none
  | none => none

/-- main.py lines 46-47: location from `span.job-search-card__location`. -/
def extractLocation (cs : List Node) : Option String :=
  match findFirstIn (isTagClass "span" "job-search-card__location") cs with
  | some el => if tagTruthy el then some (getTextStrip el) else none
  | none => none

/-- The `a.base-card__full-link` element of a card, if any. -/
def fullLinkAnchor (cs : List Node) : Option Node :=
  findFirstIn (isTagClass "a" "base-card__full-link") cs

/-- main.py lines 50-51: listing URL `url_element['href']`; subscripting a
tag without the attribute raises `KeyError`. -/
def extractUrl (cs : List Node) : Except PyExc (Option String) :=
  match fullLinkAnchor cs with
  | some el =>
    if tagTruthy el then
      match getAttr el "href" with
      | some h => .ok (some h)
      | none => .error (.keyError "href")
    else .ok none
  | none => .ok none

/-- main.py lines 54-55: posted-date text from
`time.job-search-card__listdate`. -/
def extractDateText (cs : List Node) : Option String :=
  match findFirstIn (isTagClass "time" "job-search-card__listdate") cs with
  | some el => if tagTruthy el then some (getTextStrip el) else none
  | none => none

/-- main.py line 56: ISO date `date_element['datetime']` (`KeyError` when the
attribute is absent). -/
def extractDateIso (cs : List Node) : Except PyExc (Option String) :=
  match findFirstIn (isTagClass "time" "job-search-card__listdate") cs with
  | some el =>
    if tagTruthy el then
      match getAttr el "datetime" with
      | some d => .ok (some d)
      | none => .error (.keyError "datetime")
    else .ok none
  | none => .ok none

/-- main.py lines 59-62: logo URL `logo.get('data-delayed-url', logo.get('src'))`. -/
def extractLogo (cs : List Node) : Option String :=
  match findFirstIn (isTagClass "img" "artdeco-entity-image") cs with
  | some el =>
    if tagTruthy el then
      match getAttr el "data-delayed-url" with
      | some u => some u
      | none => getAttr el "src"
    else none
  | none => none

/-- main.py lines 34-75: one loop iteration's record for one card.  The two
subscript accesses can raise; `href` is evaluated before `datetime`, as in
the source. -/
def extractCard (card : Node) : Except PyExc JobData :=
  let cs := childrenOf card
  match extractUrl cs with
  | .error e => .error e
  | .ok uv =>
    match extractDateIso cs with
    | .error e => .error e
    | .ok iso =>
      .ok { title := extractTitle cs
            company := extractCompany cs
            location := extractLocation cs
            url := uv
            date_posted_text := extractDateText cs
            date_posted_iso := iso
            company_logo_url := extractLogo cs }

/-- The job cards of a document: `find_all('div', class_='base-search-card')`. -/
def jobCards (doc : List Node) : List Node :=
  findAllIn (isTagClass "div" "base-search-card") doc

/-- The extraction loop of `parse_linkedin_jobs`: one record appended per
card, an uncaught exception aborting the whole call. -/
def parseLoop : List Node → Except PyExc (List JobData)
  | [] => .ok []
  | c :: rest =>
    match extractCard c with
    | .error e => .error e
    | .ok j =>
      match parseLoop rest with
      | .error e => .error e
      | .ok js => .ok (j :: js)

/-- Embedding of `parse_linkedin_jobs` (main.py lines 16-77) over a parsed
document. -/
def parse_linkedin_jobs (doc : List Node) : Except PyExc (List JobData) :=
  parseLoop (jobCards doc)

/-- Events observable from the embedded `SeleniumManager`. -/
inductive Ev where
  | startBrowser
  | loginAttempt (i : ℕ)
  | navigate (url : String)
  | sleep (secs : ℕ)
  | quitBrowser
deriving DecidableEq, Repr

/-- `max_retries` of `SeleniumManager.login` (selenium_manager.py line 43). -/
def maxLoginRetries : ℕ := 3

/-- `max_retries` of `get_followers` (selenium_manager.py line 105). -/
def maxFollowerRetries : ℕ := 3

/-- Message of the exception raised when every login attempt failed
(selenium_manager.py line 74). -/
def loginFailMsg : String := "Could not log into LinkedIn after multiple attempts."

/-- The retry loop of `login` (selenium_manager.py lines 44-74): the
environment gives each attempt's outcome (navigation, waits, credential
entry and the post-login landmark wait are one `try` block; any exception is
one failed attempt).  On a failed non-final attempt the code sleeps 3
seconds; when every attempt fails, `close()` runs and then the fatal
exception is raised. -/
def loginLoop (env : ℕ → Except PyExc Unit) : List ℕ → Except PyExc Unit × List Ev
  | [] => (.error (.other loginFailMsg), [.quitBrowser])
  | i :: rest =>
    match env i with
    | .ok _ => (.ok (), [.loginAttempt i])
    | .error _ =>
      let p := loginLoop env rest
      (p.1, .loginAttempt i :: ((if i < maxLoginRetries - 1 then [.sleep 3] else []) ++ p.2))

/-- Embedding of `SeleniumManager.login`. -/
def login (env : ℕ → Except PyExc Unit) : Except PyExc Unit × List Ev :=
  loginLoop env (List.range maxLoginRetries)

/-- Python truthiness of an optional string (`os.getenv` result). -/
def pyTruthyStrOpt : Option String → Bool
  | none => false
  | some s => !(s == "")

/-- Embedding of `SeleniumManager.__init__` (selenium_manager.py lines
22-36): missing or empty credentials raise `ValueError` before the browser
is started; otherwise the browser starts and `login` runs. -/
def seleniumManagerInit (user pw : Option String)
    (loginEnv : ℕ → Except PyExc Unit) : Except PyExc Unit × List Ev :=
  if !pyTruthyStrOpt user || !pyTruthyStrOpt pw then (.error .valueError, [])
  else
    let p := login loginEnv
    (p.1, .startBrowser :: p.2)

/-- Environment of one `get_followers` attempt: the outcome of
`driver.get`, the outcome of the landmark wait (`TimeoutException` on
timeout), and the two `soup.find` results on the rendered page. -/
structure AttemptEnv where
  nav : Except PyExc Unit
  wait : Except PyExc Unit
  ariaFind : Option Node
  divFind : Option Node

/-- selenium_manager.py lines 115-130: choose the text to parse.  The
aria-labelled anchor is used when found and truthy; only otherwise is the
summary-info div consulted (`get_text()`, unstripped).  Subscripting
`['aria-label']` raises `KeyError` if the attribute is missing. -/
def summaryFallback (a : AttemptEnv) : Option String :=
  match a.divFind with
  | some d => if tagTruthy d then some (getTextRaw d) else none
  | none => none

/-- The `text_to_parse` computed by one attempt, two-tier strategy. -/
def textToParse (a : AttemptEnv) : Except PyExc (Option String) :=
  match a.ariaFind with
  | some link =>
    if tagTruthy link then
      match getAttr link "aria-label" with
      | some l => .ok (some l)
      | none => .error (.keyError "aria-label")
    else .ok (summaryFallback a)
  | none => .ok (summaryFallback a)

/-- One iteration of the `get_followers` retry loop (the body of the `try`):
`.ok (some v)` is the early `return followers`; `.ok none` falls through to
retry; `.error e` is an exception inside the `try` (caught by the `except`
clauses). -/
def attemptOutcome (a : AttemptEnv) : Except PyExc (Option ℤ) :=
  match a.nav with
  | .error e => .error e
  | .ok _ =>
    match a.wait with
    | .error e => .error e
    | .ok _ =>
      match textToParse a with
      | .error e => .error e
      | .ok none => .ok none
      | .ok (some t) =>
        if t == "" then .ok none
        else
          match parse_follower_text t with
          | .ok (some v) => .ok (some v)
          | .ok none => .ok none
          | .error e => .error e

/-- The retry loop of `get_followers` (selenium_manager.py lines 106-153):
every exception of an attempt is caught (`except TimeoutException` and
`except Exception`), a 2 second sleep separates attempts, and exhausting the
attempts yields `None`. -/
def getFollowersLoop (url : String) (env : ℕ → AttemptEnv) :
    List ℕ → Except PyExc (Option ℤ) × List Ev
  | [] => (.ok none, [])
  | i :: rest =>
    match attemptOutcome (env i) with
    | .ok (some v) => (.ok (some v), [.navigate url])
    | _ =>
      let p := getFollowersLoop url env rest
      (p.1, .navigate url :: ((if i < maxFollowerRetries - 1 then [.sleep 2] else []) ++ p.2))

/-- Embedding of `SeleniumManager.get_followers` (selenium_manager.py lines
97-153).  A falsy (empty) URL returns `None` at once. -/
def get_followers (url : String) (env : ℕ → AttemptEnv) :
    Except PyExc (Option ℤ) × List Ev :=
  if url == "" then (.ok none, []) else getFollowersLoop url env (List.range maxFollowerRetries)

/-- Modelled from the spec: the PaginationController (`fetchListings`,
spec §4.1) has no source under `src/`; only this spec text describes it.
Page size fixed at 25 by the upstream endpoint. -/
def pageSize : ℕ := 25

/-- Modelled from the spec: `pagesNeeded = ceil(limit / pageSize)`. -/
def pagesNeeded (limit : ℕ) : ℕ := (limit + pageSize - 1) / pageSize

/-- Modelled from the spec: the fetch loop of §4.1.  `fetch off` is one
request at offset `off`: a transport failure aborts the loop returning the
accumulator; an empty page ends pagination; otherwise the page is appended
and the loop stops early once the limit is reached. -/
def fetchLoop {α : Type} (fetch : ℕ → Except Unit (List α)) (limit : ℕ) :
    ℕ → ℕ → List α → List α
  | _, 0, acc => acc
  | i, n + 1, acc =>
    match fetch (i * pageSize) with
    | .error _ => acc
    | .ok [] => acc
    | .ok page =>
      let acc2 := acc ++ page
      if limit ≤ acc2.length then acc2 else fetchLoop fetch limit (i + 1) n acc2

/-- Modelled from the spec: `fetchListings(query)` — iterate
`pagesNeeded` offsets and truncate the result to exactly `limit` items. -/
def fetchListings {α : Type} (fetch : ℕ → Except Unit (List α)) (limit : ℕ) : List α :=
  (fetchLoop fetch limit 0 (pagesNeeded limit) []).take limit

/-- A transport-error-free endpoint holding `avail` listings in order: the
page at offset `off` is the next `pageSize` of them. -/
def sliceFetch {α : Type} (avail : List α) : ℕ → Except Unit (List α) :=
  fun off => .ok ((avail.drop off).take pageSize)

/-- Number of login attempts recorded in a trace. -/
def countLoginAttempts (t : List Ev) : ℕ :=
  t.countP (fun e => match e with | .loginAttempt _ => true | _ => false)

/-- Number of page navigations recorded in a trace. -/
def countNavigates (t : List Ev) : ℕ :=
  t.countP (fun e => match e with | .navigate _ => true | _ => false)

/-- Did a `get_followers` attempt hit the early `return followers`? -/
def attemptSucceeds (a : AttemptEnv) : Bool :=
  match attemptOutcome a with
  | .ok (some _) => true
  | _ => false

/-- A rendered page whose aria-labelled anchor is childless — falsy under
BeautifulSoup's tag truth test, so `if follower_link:` is False although the
labelled find succeeded — while the summary-info div holds the count. -/
def envFalsyLabel : ℕ → AttemptEnv := fun _ =>
  ⟨.ok (), .ok (),
   some (.elem "a" [("aria-label", "9 followers")] []),
   some (.elem "div" [("class", "org-top-card-summary-info-list__info-item")]
     [.text "7,000 followers"])⟩

/-- A job card carrying no full-link anchor at all: extraction succeeds with
every field `None`, including the listing URL. -/
def cardNoAnchor : Node := .elem "div" [("class", "base-search-card")] []

/-- A document whose single card has no full-link anchor. -/
def docNoAnchor : List Node := [cardNoAnchor]

/-- A job card whose (truthy) full-link anchor lacks `href`: subscripting
raises `KeyError`. -/
def cardBadAnchor : Node :=
  .elem "div" [("class", "base-search-card")]
    [.elem "a" [("class", "base-card__full-link")] [.text "x"]]

/-- A document whose single card makes extraction raise. -/
def docBadAnchor : List Node := [cardBadAnchor]

/-- The record with every field absent. -/
def emptyJobData : JobData :=
  { title := none, company := none, location := none, url := none,
    date_posted_text := none, date_posted_iso := none, company_logo_url := none }

/-- A plain decimal numeral `I[.F]` made of an integer part and an optional
fraction part. -/
def simpleDecimal (I F : List Char) : List Char :=
  I ++ (if F.isEmpty then [] else '.' :: F)

/-- The exact value of `I.F`. -/
def simpleDecimalVal (I F : List Char) : ℚ :=
  decValue false (digitsVal (I ++ F)) (-(F.length : ℤ))

/-- A job card whose full-link anchor has an `href`: extraction succeeds
with a non-null URL. -/
def cardGood : Node :=
  .elem "div" [("class", "base-search-card")]
    [.elem "a" [("class", "base-card__full-link"), ("href", "https://j")]
      [.text "t"]]

/-- The record extracted from `cardGood`. -/
def jdGood : JobData :=
  { title := none, company := none, location := none, url := some "https://j",
    date_posted_text := none, date_posted_iso := none, company_logo_url := none }

/-! ## General lemmas -/

/-- The hard-coded overflow threshold is 2^1024 - 2^970. -/
theorem flOverflowNat_eq_pow : flOverflowNat = 2 ^ 1024 - 2 ^ 970 := by
  norm_num [flOverflowNat]

/-- The hard-coded `pow2_1024` literal is `2 ^ 1024`. -/
theorem pow2_1024_eq : pow2_1024 = 2 ^ 1024 := by
  norm_num [pow2_1024]

set_option maxRecDepth 100000 in
/-- Rounding overflows exactly from `2 ^ 1024 - 2 ^ 970` on: the threshold
itself rounds to infinity, one below it to the largest finite double
`(2 ^ 53 - 1) * 2 ^ 971`. -/
theorem roundDouble_threshold :
    roundDouble flOverflow = .inf
    ∧ roundDouble (mkRat ((flOverflowNat : ℤ) - 1) 1) =
      .finite (dyadicQ false (2 ^ 53 - 1) 971) :=
  ⟨by decide, by decide⟩

/-! ## C9 -/

/-- C9: for an empty (falsy) company URL, `get_followers` returns `None`
immediately: no navigation, no wait, no sleep and no retry attempt appear in
the trace, whatever the browser environment does. -/
theorem get_followers_empty_url (env : ℕ → AttemptEnv) :
    get_followers "" env = (.ok none, []) := by
  simp [get_followers]

/-! ## C6 -/

/-- C6: a missing (or empty, hence falsy) account identifier or secret makes
the manager's constructor raise `ValueError` with an empty event trace: in
particular no browser is started. -/
theorem init_missing_credentials_fatal (user pw : Option String)
    (loginEnv : ℕ → Except PyExc Unit)
    (h : pyTruthyStrOpt user = false ∨ pyTruthyStrOpt pw = false) :
    seleniumManagerInit user pw loginEnv = (.error .valueError, [])
    ∧ Ev.startBrowser ∉ (seleniumManagerInit user pw loginEnv).2 := by
  rcases h with h | h <;>
    simp [seleniumManagerInit, h]

/-- Witness for C6 at a concrete input: both credentials absent. -/
theorem init_missing_credentials_fatal_witness :
    pyTruthyStrOpt none = false
    ∧ seleniumManagerInit none (some "secret") (fun _ => .ok ()) =
        (.error .valueError, []) :=
  ⟨by decide,
   (init_missing_credentials_fatal none (some "secret") (fun _ => .ok ())
     (Or.inl (by decide))).1⟩

/-! ## C3 -/

/-- C3: `login` makes at most `maxLoginRetries` (3) attempts; when some
attempt within the bound succeeds (for example two failures then one
success) the call returns normally; when all 3 attempts fail it raises the
fatal exception, with the browser teardown (`close`, recorded as
`quitBrowser`) performed before the error propagates. -/
theorem login_retry_spec (env : ℕ → Except PyExc Unit) :
    countLoginAttempts (login env).2 ≤ maxLoginRetries
    ∧ ((∃ i, i < maxLoginRetries ∧ exceptIsOk (env i) = true) →
        (login env).1 = .ok ())
    ∧ ((∀ i, i < maxLoginRetries → exceptIsOk (env i) = false) →
        login env = (.error (.other loginFailMsg),
          [.loginAttempt 0, .sleep 3, .loginAttempt 1, .sleep 3,
           .loginAttempt 2, .quitBrowser])) := by
  have hr : List.range maxLoginRetries = [0, 1, 2] := by decide
  refine ⟨?_, ?_, ?_⟩
  · cases h0 : env 0 <;> cases h1 : env 1 <;> cases h2 : env 2 <;>
      simp [login, hr, loginLoop, h0, h1, h2, countLoginAttempts, maxLoginRetries]
  · rintro ⟨i, hi, hok⟩
    cases h0 : env 0 with
    | ok a => simp [login, hr, loginLoop, h0]
    | error x0 =>
      cases h1 : env 1 with
      | ok a => simp [login, hr, loginLoop, h0, h1]
      | error x1 =>
        cases h2 : env 2 with
        | ok a => simp [login, hr, loginLoop, h0, h1, h2]
        | error x2 =>
          exfalso
          simp only [maxLoginRetries] at hi
          interval_cases i <;> simp_all [exceptIsOk]
  · intro hall
    have e0 := hall 0 (by simp [maxLoginRetries])
    have e1 := hall 1 (by simp [maxLoginRetries])
    have e2 := hall 2 (by simp [maxLoginRetries])
    cases h0 : env 0 with
    | ok a => rw [h0] at e0; simp [exceptIsOk] at e0
    | error x0 =>
      cases h1 : env 1 with
      | ok a => rw [h1] at e1; simp [exceptIsOk] at e1
      | error x1 =>
        cases h2 : env 2 with
        | ok a => rw [h2] at e2; simp [exceptIsOk] at e2
        | error x2 =>
          simp [login, hr, loginLoop, h0, h1, h2, maxLoginRetries]

/-- Witness for C3: an environment failing twice then succeeding logs in,
and an always-failing environment yields the fatal error after the
teardown. -/
theorem login_retry_spec_witness :
    (∃ i, i < maxLoginRetries ∧
      exceptIsOk ((fun j => if j = 2 then (.ok () : Except PyExc Unit)
        else .error .timeoutException) i) = true)
    ∧ (login (fun j => if j = 2 then (.ok () : Except PyExc Unit)
        else .error .timeoutException)).1 = .ok ()
    ∧ login (fun _ => (.error .timeoutException : Except PyExc Unit)) =
        (.error (.other loginFailMsg),
         [.loginAttempt 0, .sleep 3, .loginAttempt 1, .sleep 3,
          .loginAttempt 2, .quitBrowser]) :=
  ⟨⟨2, by decide, by decide⟩,
   (login_retry_spec _).2.1 ⟨2, by decide, by decide⟩,
   (login_retry_spec _).2.2 (fun i _ => rfl)⟩

/-! ## C2 -/

/-- A non-successful attempt (found nothing, unparsable text, or any caught
exception) makes the retry loop move on to the remaining attempts. -/
theorem getFollowersLoop_not_success (url : String) (env : ℕ → AttemptEnv)
    (i : ℕ) (rest : List ℕ) (h : attemptSucceeds (env i) = false) :
    getFollowersLoop url env (i :: rest) =
      ((getFollowersLoop url env rest).1,
       .navigate url :: ((if i < maxFollowerRetries - 1 then [.sleep 2] else []) ++
         (getFollowersLoop url env rest).2)) := by
  unfold attemptSucceeds at h
  cases ho : attemptOutcome (env i) with
  | ok o =>
    cases o with
    | some v => rw [ho] at h; simp at h
    | none => simp [getFollowersLoop, ho]
  | error e => simp [getFollowersLoop, ho]

/-- A successful attempt returns its value at once. -/
theorem getFollowersLoop_success (url : String) (env : ℕ → AttemptEnv)
    (i : ℕ) (rest : List ℕ) (v : ℤ) (h : attemptOutcome (env i) = .ok (some v)) :
    getFollowersLoop url env (i :: rest) = (.ok (some v), [.navigate url]) := by
  simp [getFollowersLoop, h]

/-- A successful attempt yields a value. -/
theorem attemptSucceeds_true (a : AttemptEnv) (h : attemptSucceeds a = true) :
    ∃ v, attemptOutcome a = .ok (some v) := by
  unfold attemptSucceeds at h
  cases ho : attemptOutcome a with
  | ok o =>
    cases o with
    | some v => exact ⟨v, rfl⟩
    | none => rw [ho] at h; simp at h
  | error e => rw [ho] at h; simp at h

/-- C2: for every company URL and every behaviour of the browser session,
`get_followers` never raises (its result is always `ok`), makes at most 3
attempts (navigations), emits only navigations and the fixed 2-second
inter-attempt sleeps, and, when every attempt fails, performs exactly the
3 attempts separated by 2-second sleeps and returns `None`. -/
theorem get_followers_resilient (url : String) (env : ℕ → AttemptEnv)
    (hurl : url ≠ "") :
    exceptIsOk (get_followers url env).1 = true
    ∧ countNavigates (get_followers url env).2 ≤ maxFollowerRetries
    ∧ (∀ e ∈ (get_followers url env).2, e = .navigate url ∨ e = .sleep 2)
    ∧ ((∀ i, i < maxFollowerRetries → attemptSucceeds (env i) = false) →
        get_followers url env = (.ok none,
          [.navigate url, .sleep 2, .navigate url, .sleep 2, .navigate url])) := by
  have hr : List.range 3 = [0, 1, 2] := by decide
  have hb : (url == "") = false := by simp [hurl]
  have hget : get_followers url env = getFollowersLoop url env [0, 1, 2] := by
    simp [get_followers, hb, maxFollowerRetries, hr]
  cases hs0 : attemptSucceeds (env 0) with
  | true =>
    obtain ⟨v, hv⟩ := attemptSucceeds_true _ hs0
    rw [hget, getFollowersLoop_success url env 0 _ v hv]
    refine ⟨rfl, by simp [countNavigates, maxFollowerRetries],
      by simp [maxFollowerRetries], fun hall => ?_⟩
    exact absurd (hall 0 (by simp [maxFollowerRetries])) (by simp [hs0])
  | false =>
    rw [hget, getFollowersLoop_not_success url env 0 _ hs0]
    cases hs1 : attemptSucceeds (env 1) with
    | true =>
      obtain ⟨v, hv⟩ := attemptSucceeds_true _ hs1
      rw [getFollowersLoop_success url env 1 _ v hv]
      refine ⟨rfl, by simp [countNavigates, maxFollowerRetries],
        by simp [maxFollowerRetries], fun hall => ?_⟩
      exact absurd (hall 1 (by simp [maxFollowerRetries])) (by simp [hs1])
    | false =>
      rw [getFollowersLoop_not_success url env 1 _ hs1]
      cases hs2 : attemptSucceeds (env 2) with
      | true =>
        obtain ⟨v, hv⟩ := attemptSucceeds_true _ hs2
        rw [getFollowersLoop_success url env 2 _ v hv]
        refine ⟨rfl, by simp [countNavigates, maxFollowerRetries],
          by simp [maxFollowerRetries], fun hall => ?_⟩
        exact absurd (hall 2 (by simp [maxFollowerRetries])) (by simp [hs2])
      | false =>
        rw [getFollowersLoop_not_success url env 2 _ hs2]
        refine ⟨rfl, by simp [getFollowersLoop, countNavigates, maxFollowerRetries],
          by simp [getFollowersLoop, maxFollowerRetries], fun hall => ?_⟩
        simp [getFollowersLoop, maxFollowerRetries]

/-- Witness for C2: a URL with an always-timing-out environment returns
`None` after 3 attempts with 2-second sleeps between them. -/
theorem get_followers_resilient_witness :
    ("https://www.linkedin.com/company/intetics" ≠ "")
    ∧ get_followers "https://www.linkedin.com/company/intetics"
        (fun _ => ⟨.error .timeoutException, .ok (), none, none⟩) =
      (.ok none,
       [.navigate "https://www.linkedin.com/company/intetics", .sleep 2,
        .navigate "https://www.linkedin.com/company/intetics", .sleep 2,
        .navigate "https://www.linkedin.com/company/intetics"]) :=
  ⟨by decide,
   (get_followers_resilient _ _ (by decide)).2.2.2 (fun i _ => rfl)⟩

/-! ## C4 -/

/-- Counterexample to C4 as stated: BeautifulSoup's `if follower_link:`
tests tag truthiness and a childless tag is falsy, so on a page whose
aria-labelled anchor is empty the method parses the summary-info fallback
although a labelled element exists — here the labelled find succeeds, yet
the text parsed is the fallback div's `7,000 followers` (the label would
give 9), and the call returns 7000. -/
theorem get_followers_fallback_despite_label :
    (envFalsyLabel 0).ariaFind ≠ none
    ∧ textToParse (envFalsyLabel 0) = .ok (some "7,000 followers")
    ∧ parse_follower_text "9 followers" = .ok (some 9)
    ∧ get_followers "https://c2" envFalsyLabel =
        (.ok (some 7000), [.navigate "https://c2"]) := by
  have htp : textToParse (envFalsyLabel 0) = .ok (some "7,000 followers") := by
    simp [textToParse, envFalsyLabel, tagTruthy, summaryFallback, getTextRaw,
      nodeTextsList, childrenOf]
  have hp : parse_follower_text "7,000 followers" = .ok (some 7000) := by decide
  have hnav : (envFalsyLabel 0).nav = .ok () := rfl
  have hwait : (envFalsyLabel 0).wait = .ok () := rfl
  have hbne : (("7,000 followers" : String) == "") = false := by decide
  have hout : attemptOutcome (envFalsyLabel 0) = .ok (some 7000) := by
    simp [attemptOutcome, hnav, hwait, htp, hbne, hp]
  refine ⟨by simp [envFalsyLabel], htp, by decide, ?_⟩
  have hr : List.range 3 = [0, 1, 2] := by decide
  rw [get_followers, if_neg (by simp), maxFollowerRetries, hr]
  exact getFollowersLoop_success "https://c2" envFalsyLabel 0 _ 7000 hout

/-- C4 amended: `get_followers` prefers the aria-labelled element exactly
when the labelled find returns a truthy tag — then that label is the text
parsed, whatever the summary-info fallback holds, and a parsed count returns
at once; the fallback is consulted both when no labelled element was found
and when the found one is falsy (childless). -/
theorem get_followers_two_tier_preference (url : String) (env : ℕ → AttemptEnv) :
    (∀ link l, (env 0).ariaFind = some link → tagTruthy link = true →
        getAttr link "aria-label" = some l → textToParse (env 0) = .ok (some l))
    ∧ (∀ link, (env 0).ariaFind = some link → tagTruthy link = false →
        textToParse (env 0) = .ok (summaryFallback (env 0)))
    ∧ ((env 0).ariaFind = none → textToParse (env 0) = .ok (summaryFallback (env 0)))
    ∧ (∀ link l v, url ≠ "" → (env 0).nav = .ok () → (env 0).wait = .ok () →
        (env 0).ariaFind = some link → tagTruthy link = true →
        getAttr link "aria-label" = some l → l ≠ "" →
        parse_follower_text l = .ok (some v) →
        get_followers url env = (.ok (some v), [.navigate url])) := by
  refine ⟨?_, ?_, ?_, ?_⟩
  · intro link l haria htr hlab
    simp [textToParse, haria, htr, hlab]
  · intro link haria htr
    simp [textToParse, haria, htr]
  · intro haria
    simp [textToParse, haria]
  · intro link l v hurl hnav hwait haria htr hlab hne hparse
    have hout : attemptOutcome (env 0) = .ok (some v) := by
      have hbne : (l == "") = false := by simp [hne]
      simp [attemptOutcome, hnav, hwait, textToParse, haria, htr, hlab, hbne, hparse]
    have hb : (url == "") = false := by simp [hurl]
    have hr : List.range 3 = [0, 1, 2] := by decide
    rw [get_followers, if_neg (by simp [hb]), maxFollowerRetries, hr]
    exact getFollowersLoop_success url env 0 _ v hout

/-- Witness for the amended C4 at a concrete page: a truthy aria-labelled
anchor reading `1,234 followers` wins over a present summary-info div
reading `99 followers`. -/
theorem get_followers_two_tier_preference_witness :
    parse_follower_text "1,234 followers" = .ok (some 1234)
    ∧ get_followers "https://c"
        (fun _ => ⟨.ok (), .ok (),
          some (.elem "a" [("aria-label", "1,234 followers")] [.text "x"]),
          some (.elem "div" [("class", "org-top-card-summary-info-list__info-item")]
            [.text "99 followers"])⟩) =
      (.ok (some 1234), [.navigate "https://c"]) := by
  have hp : parse_follower_text "1,234 followers" = .ok (some 1234) := by decide
  exact ⟨hp,
    (get_followers_two_tier_preference "https://c" _).2.2.2
      (.elem "a" [("aria-label", "1,234 followers")] [.text "x"])
      "1,234 followers" 1234 (by decide) rfl rfl rfl (by decide) rfl (by decide) hp⟩

/-! ## C7 and C10 -/

/-- Counterexample to C7 as stated: a `base-search-card` div with no
full-link anchor yields a record whose `url` field is `None` (like every
other field), so extraction does not guarantee a non-null listing URL. -/
theorem parse_jobs_url_none_counterexample :
    parse_linkedin_jobs docNoAnchor = .ok [emptyJobData]
    ∧ emptyJobData.url = none
    ∧ (jobCards docNoAnchor).length = 1 := by
  refine ⟨?_, rfl, ?_⟩
  · simp [parse_linkedin_jobs, jobCards, findAllIn, isTagClass, hasClass, getAttr,
      splitWSGo, parseLoop, extractCard, extractUrl, extractDateIso, extractTitle,
      extractCompany, extractLocation, extractDateText, extractLogo, fullLinkAnchor,
      findFirstIn, childrenOf, cardNoAnchor, docNoAnchor, isPyWhite, emptyJobData]
  · simp [jobCards, findAllIn, isTagClass, hasClass, getAttr, splitWSGo,
      cardNoAnchor, docNoAnchor, isPyWhite]

/-- The C7 claim holds under the amendment: within a successfully extracted
record, the `url` field is `None` exactly when the card has no truthy
full-link anchor, and carries the anchor's `href` when one is present. -/
theorem extractCard_url_amended (card : Node) (jd : JobData)
    (h : extractCard card = .ok jd) :
    (jd.url = none ↔
      ∀ a, fullLinkAnchor (childrenOf card) = some a → tagTruthy a = false)
    ∧ (∀ a u, fullLinkAnchor (childrenOf card) = some a → tagTruthy a = true →
        getAttr a "href" = some u → jd.url = some u) := by
  have hu : extractUrl (childrenOf card) = .ok jd.url := by
    simp only [extractCard] at h
    cases hx : extractUrl (childrenOf card) with
    | error e => rw [hx] at h; simp at h
    | ok uv =>
      rw [hx] at h
      cases hy : extractDateIso (childrenOf card) with
      | error e => rw [hy] at h; simp at h
      | ok iso =>
        rw [hy] at h
        simp only [Except.ok.injEq] at h
        rw [← h]
  unfold extractUrl at hu
  cases hf : fullLinkAnchor (childrenOf card) with
  | none =>
    rw [hf] at hu
    simp only [Except.ok.injEq] at hu
    refine ⟨by simp [← hu], ?_⟩
    intro a u ha
    cases ha
  | some a =>
    rw [hf] at hu
    dsimp only at hu
    cases htr : tagTruthy a with
    | false =>
      rw [htr] at hu
      simp only [Bool.false_eq_true, if_false, Except.ok.injEq] at hu
      refine ⟨by simp [← hu, htr], ?_⟩
      intro a' u ha' htr'
      injection ha' with e
      subst e
      rw [htr] at htr'
      cases htr'
    | true =>
      rw [htr] at hu
      simp only [if_true] at hu
      cases hga : getAttr a "href" with
      | none => rw [hga] at hu; simp at hu
      | some u0 =>
        rw [hga] at hu
        simp only [Except.ok.injEq] at hu
        constructor
        · constructor
          · intro hn; rw [← hu] at hn; cases hn
          · intro hall
            have hcontra := hall a rfl
            rw [htr] at hcontra
            cases hcontra
        · intro a' u' ha' htr' hga'
          injection ha' with e
          subst e
          rw [hga] at hga'
          injection hga' with e2
          rw [← hu, e2]

/-- `extractCard` unfolded to its sub-extractors (definitional). -/
theorem extractCard_unfold (card : Node) : extractCard card =
    (match extractUrl (childrenOf card) with
    | .error e => .error e
    | .ok uv =>
      match extractDateIso (childrenOf card) with
      | .error e => .error e
      | .ok iso =>
        .ok { title := extractTitle (childrenOf card)
              company := extractCompany (childrenOf card)
              location := extractLocation (childrenOf card)
              url := uv
              date_posted_text := extractDateText (childrenOf card)
              date_posted_iso := iso
              company_logo_url := extractLogo (childrenOf card) }) := rfl

/-- Witness for the amended C7: a card whose anchor has an `href` extracts
with exactly that URL. -/
theorem extractCard_url_amended_witness :
    extractCard cardGood = .ok jdGood ∧ jdGood.url = some "https://j" := by
  have hfA : fullLinkAnchor (childrenOf cardGood) =
      some (.elem "a" [("class", "base-card__full-link"), ("href", "https://j")]
        [.text "t"]) := by
    simp [fullLinkAnchor, findFirstIn, findAllIn, isTagClass, hasClass, getAttr,
      splitWSGo, childrenOf, cardGood, isPyWhite]
  have hfT : findFirstIn (isTagClass "h3" "base-search-card__title")
      (childrenOf cardGood) = none := by
    simp [findFirstIn, findAllIn, isTagClass, hasClass, getAttr, splitWSGo,
      childrenOf, cardGood, isPyWhite]
  have hfC : findFirstIn (isTagClass "h4" "base-search-card__subtitle")
      (childrenOf cardGood) = none := by
    simp [findFirstIn, findAllIn, isTagClass, hasClass, getAttr, splitWSGo,
      childrenOf, cardGood, isPyWhite]
  have hfL : findFirstIn (isTagClass "span" "job-search-card__location")
      (childrenOf cardGood) = none := by
    simp [findFirstIn, findAllIn, isTagClass, hasClass, getAttr, splitWSGo,
      childrenOf, cardGood, isPyWhite]
  have hfD : findFirstIn (isTagClass "time" "job-search-card__listdate")
      (childrenOf cardGood) = none := by
    simp [findFirstIn, findAllIn, isTagClass, hasClass, getAttr, splitWSGo,
      childrenOf, cardGood, isPyWhite]
  have hfG : findFirstIn (isTagClass "img" "artdeco-entity-image")
      (childrenOf cardGood) = none := by
    simp [findFirstIn, findAllIn, isTagClass, hasClass, getAttr, splitWSGo,
      childrenOf, cardGood, isPyWhite]
  have hU : extractUrl (childrenOf cardGood) = .ok (some "https://j") := by
    rw [extractUrl.eq_1, hfA]
    rfl
  have hD : extractDateIso (childrenOf cardGood) = .ok none := by
    rw [extractDateIso.eq_1, hfD]
  have hT : extractTitle (childrenOf cardGood) = none := by
    rw [extractTitle.eq_1, hfT]
  have hC : extractCompany (childrenOf cardGood) = none := by
    rw [extractCompany.eq_1, hfC]
  have hL : extractLocation (childrenOf cardGood) = none := by
    rw [extractLocation.eq_1, hfL]
  have hDT : extractDateText (childrenOf cardGood) = none := by
    rw [extractDateText.eq_1, hfD]
  have hLg : extractLogo (childrenOf cardGood) = none := by
    rw [extractLogo.eq_1, hfG]
  have h : extractCard cardGood = .ok jdGood := by
    rw [extractCard_unfold, hU, hD, hT, hC, hL, hDT, hLg]
    rfl
  refine ⟨h, ?_⟩
  exact (extractCard_url_amended cardGood jdGood h).2
    (.elem "a" [("class", "base-card__full-link"), ("href", "https://j")] [.text "t"])
    "https://j" hfA (by decide) (by decide)

/-- Counterexample to C10 as stated: a card whose (truthy) full-link anchor
lacks `href` makes `parse_linkedin_jobs` raise `KeyError` instead of
returning one record for the one card. -/
theorem parse_jobs_keyerror_counterexample :
    parse_linkedin_jobs docBadAnchor = .error (.keyError "href")
    ∧ (jobCards docBadAnchor).length = 1 := by
  constructor
  · simp [parse_linkedin_jobs, jobCards, findAllIn, isTagClass, hasClass, getAttr,
      splitWSGo, parseLoop, extractCard, extractUrl, extractDateIso, fullLinkAnchor,
      findFirstIn, childrenOf, cardBadAnchor, docBadAnchor, isTag, tagTruthy,
      isPyWhite, List.lookup]
  · simp [jobCards, findAllIn, isTagClass, hasClass, getAttr, splitWSGo,
      cardBadAnchor, docBadAnchor, isPyWhite]

/-- The extraction loop produces exactly one record per card, in order,
whenever it completes. -/
theorem parseLoop_spec (cs : List Node) :
    ∀ l, parseLoop cs = .ok l →
      l.length = cs.length
      ∧ ∀ i (hi : i < cs.length) (hl : i < l.length),
          extractCard (cs.get ⟨i, hi⟩) = .ok (l.get ⟨i, hl⟩) := by
  induction cs with
  | nil =>
    intro l h
    simp only [parseLoop, Except.ok.injEq] at h
    subst h
    simp
  | cons c rest ih =>
    intro l h
    simp only [parseLoop] at h
    cases hc : extractCard c with
    | error e => rw [hc] at h; simp at h
    | ok j =>
      rw [hc] at h
      cases hrest : parseLoop rest with
      | error e => rw [hrest] at h; simp at h
      | ok js =>
        rw [hrest] at h
        simp only [Except.ok.injEq] at h
        subst h
        obtain ⟨hlen, hidx⟩ := ih js hrest
        refine ⟨by simp [hlen], ?_⟩
        intro i hi hl
        cases i with
        | zero => simpa using hc
        | succ k =>
          simpa using hidx k (by simpa using hi) (by simpa using hl)

/-- C10 amended: whenever `parse_linkedin_jobs` returns normally it returns
exactly one record per `base-search-card` div, in document order; in
particular a document with no card yields the empty list.  (As stated the
claim fails: the call can instead raise `KeyError`, see the
counterexample.) -/
theorem parse_jobs_one_record_per_card (doc : List Node) :
    (jobCards doc = [] → parse_linkedin_jobs doc = .ok [])
    ∧ ∀ l, parse_linkedin_jobs doc = .ok l →
        l.length = (jobCards doc).length
        ∧ ∀ i (hi : i < (jobCards doc).length) (hl : i < l.length),
            extractCard ((jobCards doc).get ⟨i, hi⟩) = .ok (l.get ⟨i, hl⟩) := by
  constructor
  · intro hempty
    simp [parse_linkedin_jobs, hempty, parseLoop]
  · intro l h
    exact parseLoop_spec (jobCards doc) l h

/-- Witness for the amended C10 at a concrete document with one card. -/
theorem parse_jobs_one_record_per_card_witness :
    parse_linkedin_jobs docNoAnchor = .ok [emptyJobData]
    ∧ [emptyJobData].length = (jobCards docNoAnchor).length := by
  have h : parse_linkedin_jobs docNoAnchor = .ok [emptyJobData] := by
    simp [parse_linkedin_jobs, jobCards, findAllIn, isTagClass, hasClass, getAttr,
      splitWSGo, parseLoop, extractCard, extractUrl, extractDateIso, extractTitle,
      extractCompany, extractLocation, extractDateText, extractLogo, fullLinkAnchor,
      findFirstIn, childrenOf, cardNoAnchor, docNoAnchor, isPyWhite, emptyJobData]
  exact ⟨h, ((parse_jobs_one_record_per_card docNoAnchor).2 [emptyJobData] h).1⟩

/-! ## C8 -/

/-- `pagesNeeded` pages cover the limit: `L ≤ ceil(L/25) * 25`. -/
theorem le_pagesNeeded_mul (L : ℕ) : L ≤ pagesNeeded L * pageSize := by
  simp only [pagesNeeded, pageSize]
  omega

/-- An empty page ends the loop with the accumulator. -/
theorem fetchLoop_succ_empty {α : Type} (fetch : ℕ → Except Unit (List α))
    (L i n : ℕ) (acc : List α) (h : fetch (i * pageSize) = .ok []) :
    fetchLoop fetch L i (n + 1) acc = acc := by
  simp [fetchLoop, h]

/-- A nonempty page is appended; the loop stops early at the limit. -/
theorem fetchLoop_succ_cons {α : Type} (fetch : ℕ → Except Unit (List α))
    (L i n : ℕ) (acc page : List α) (h : fetch (i * pageSize) = .ok page)
    (hne : page ≠ []) :
    fetchLoop fetch L i (n + 1) acc =
      if L ≤ (acc ++ page).length then acc ++ page
      else fetchLoop fetch L (i + 1) n (acc ++ page) := by
  cases page with
  | nil => exact absurd rfl hne
  | cons x xs => simp [fetchLoop, h]

/-- Loop invariant for the transport-error-free slice endpoint: starting from
the prefix already accumulated, the loop always returns a prefix of `avail`
of length at least `min L avail.length`. -/
theorem fetchLoop_slice {α : Type} (avail : List α) (L : ℕ) :
    ∀ n i acc, acc = avail.take (i * pageSize) → acc.length < L →
      L ≤ (i + n) * pageSize →
      (∃ m, fetchLoop (sliceFetch avail) L i n acc = avail.take m)
      ∧ min L avail.length ≤ (fetchLoop (sliceFetch avail) L i n acc).length := by
  intro n
  induction n with
  | zero =>
    intro i acc hacc hlt hle
    have hlen : acc.length = min (i * pageSize) avail.length := by
      rw [hacc]; exact List.length_take _ _
    refine ⟨⟨i * pageSize, hacc⟩, ?_⟩
    show min L avail.length ≤ acc.length
    simp only [pageSize] at hlen hle ⊢
    omega
  | succ n ih =>
    intro i acc hacc hlt hle
    cases hpage : (avail.drop (i * pageSize)).take pageSize with
    | nil =>
      have hfetch : sliceFetch avail (i * pageSize) = .ok [] := by
        simp [sliceFetch, hpage]
      rw [fetchLoop_succ_empty _ L i n acc hfetch]
      have hav : avail.length ≤ i * pageSize := by
        have h1 := List.take_eq_nil_iff.mp hpage
        rcases h1 with h1 | h1
        · simp [pageSize] at h1
        · have := List.drop_eq_nil_iff.mp h1
          omega
      have hlen : acc.length = min (i * pageSize) avail.length := by
        rw [hacc]; exact List.length_take _ _
      refine ⟨⟨i * pageSize, hacc⟩, ?_⟩
      omega
    | cons x xs =>
      have hfetch : sliceFetch avail (i * pageSize) = .ok (x :: xs) := by
        simp [sliceFetch, hpage]
      have hne : (x :: xs : List α) ≠ [] := by simp
      rw [fetchLoop_succ_cons _ L i n acc (x :: xs) hfetch hne]
      have hacc2 : acc ++ x :: xs = avail.take ((i + 1) * pageSize) := by
        rw [← hpage, hacc, ← List.take_add]
        congr 1
        ring
      by_cases hstop : L ≤ (acc ++ x :: xs).length
      · rw [if_pos hstop]
        refine ⟨⟨(i + 1) * pageSize, hacc2⟩, ?_⟩
        omega
      · rw [if_neg hstop]
        refine ih (i + 1) (acc ++ x :: xs) hacc2 (by omega) ?_
        calc L ≤ (i + (n + 1)) * pageSize := hle
        _ = (i + 1 + n) * pageSize := by ring

/-- C8 (spec-modelled, PaginationController absent from src/): for every
positive limit `L` with page size 25, `fetchListings` returns at most `L`
listings, and over a transport-error-free endpoint holding `totalAvailable`
listings it returns exactly `min L totalAvailable` of them, the over-fetch
of the last page being truncated. -/
theorem fetchListings_limit_spec {α : Type} (fetch : ℕ → Except Unit (List α))
    (avail : List α) (L : ℕ) (hL : 0 < L) :
    (fetchListings fetch L).length ≤ L
    ∧ (fetchListings (sliceFetch avail) L).length = min L avail.length := by
  constructor
  · simp only [fetchListings, List.length_take]
    omega
  · have hinit : ([] : List α) = avail.take (0 * pageSize) := by simp
    have hcov : L ≤ (0 + pagesNeeded L) * pageSize := by
      simpa using le_pagesNeeded_mul L
    obtain ⟨⟨m, hm⟩, hmin⟩ :=
      fetchLoop_slice avail L (pagesNeeded L) 0 [] hinit (by simpa using hL) hcov
    have hlenle : (fetchLoop (sliceFetch avail) L 0 (pagesNeeded L) []).length
        ≤ avail.length := by
      rw [hm, List.length_take]
      omega
    simp only [fetchListings, List.length_take]
    omega

/-- Witness for C8: limit 30 over 40 available listings yields exactly 30. -/
theorem fetchListings_limit_spec_witness :
    (0 < 30)
    ∧ (fetchListings (sliceFetch (List.range 40)) 30).length ≤ 30
    ∧ (fetchListings (sliceFetch (List.range 40)) 30).length =
        min 30 (List.range 40).length :=
  ⟨by decide,
   (fetchListings_limit_spec (sliceFetch (List.range 40)) (List.range 40) 30
     (by decide)).1,
   (fetchListings_limit_spec (sliceFetch (List.range 40)) (List.range 40) 30
     (by decide)).2⟩

/-! ## C5 -/

set_option maxRecDepth 100000 in
/-- Counterexample to C5 as stated: on `"inf followers"` the remainder is
`inf`, Python `float` accepts it as an infinity, and `int(inf * 1)` raises
`OverflowError`, which no `except` clause of the method catches — the
function is not total. -/
theorem parse_follower_text_raises_on_inf :
    parse_follower_text "inf followers" = .error .overflowError := by decide

/-- C5 amended: `_parse_follower_text` returns an integer or `None` for
every input — a non-numeric remainder gives `None`, not a crash — except
when the remainder times the multiplier denotes an infinite float value
(an `inf`/`infinity` literal or a literal at or beyond the double range),
in which case `int()` raises `OverflowError`. -/
theorem parse_follower_text_total_unless_infinite (s : String) :
    (∃ r, parse_follower_text s = .ok r)
    ∨ (parse_follower_text s = .error .overflowError
       ∧ (followerScaled s = some .inf ∨ followerScaled s = some .neginf)) := by
  simp only [parse_follower_text, followerScaled]
  cases hf : pyFloatOfString (followerMultSplit (followerRemainder s.data)).2 with
  | none => exact Or.inl ⟨none, rfl⟩
  | some f =>
    cases hm : pyMulPos f (followerMultSplit (followerRemainder s.data)).1 with
    | finite q => exact Or.inl ⟨some (ratTrunc q), by simp [pyIntOfFloat, hm]⟩
    | inf => exact Or.inr ⟨by simp [pyIntOfFloat, hm], Or.inl (by simp [hm])⟩
    | neginf => exact Or.inr ⟨by simp [pyIntOfFloat, hm], Or.inr (by simp [hm])⟩
    | nan => exact Or.inl ⟨none, by simp [pyIntOfFloat, hm]⟩

/-! ## C1: normalisation lemmas -/

/-- Characters with different code points differ. -/
theorem char_ne_of_toNat_ne (c d : Char) (h : c.toNat ≠ d.toNat) : c ≠ d :=
  fun he => h (he ▸ rfl)

/-- A digit character's code point lies in 48..57. -/
theorem digit_toNat (c : Char) (h : isDigitChar c = true) :
    48 ≤ c.toNat ∧ c.toNat ≤ 57 := by
  simpa [isDigitChar] using h

/-- Lowercasing fixes digits. -/
theorem pyLowerChar_digit (c : Char) (h : isDigitChar c = true) :
    pyLowerChar c = c := by
  obtain ⟨h1, h2⟩ := digit_toNat c h
  unfold pyLowerChar
  rw [if_neg]
  simp only [Bool.and_eq_true, decide_eq_true_eq, not_and]
  omega

/-- Digits are not whitespace. -/
theorem isPyWhite_digit (c : Char) (h : isDigitChar c = true) :
    isPyWhite c = false := by
  obtain ⟨h1, h2⟩ := digit_toNat c h
  unfold isPyWhite
  simp only [Bool.or_eq_false_iff, decide_eq_false_iff_not]
  omega

/-- `map` of a pointwise-fixing function is the identity. -/
theorem pyLower_eq_self (s : List Char) (h : ∀ c ∈ s, pyLowerChar c = c) :
    pyLower s = s := by
  induction s with
  | nil => rfl
  | cons c rest ih =>
    have hc := h c (List.mem_cons_self c rest)
    have hr := ih fun x hx => h x (List.mem_cons_of_mem _ hx)
    simp only [pyLower, List.map_cons] at hr ⊢
    rw [hc, hr]

/-- `dropWhile` does nothing when no element satisfies the predicate. -/
theorem dropWhile_eq_self_of (p : Char → Bool) (s : List Char)
    (h : ∀ c ∈ s, p c = false) : s.dropWhile p = s := by
  cases s with
  | nil => rfl
  | cons c rest => simp [List.dropWhile_cons, h c (List.mem_cons_self c rest)]

/-- Stripping a whitespace-free string does nothing. -/
theorem pyStrip_no_white (s : List Char) (h : ∀ c ∈ s, isPyWhite c = false) :
    pyStrip s = s := by
  unfold pyStrip
  rw [dropWhile_eq_self_of _ _ h,
      dropWhile_eq_self_of _ _ (fun c hc => h c (List.mem_reverse.mp hc)),
      List.reverse_reverse]

/-- Stripping removes exactly one trailing space from a whitespace-free
string. -/
theorem pyStrip_append_space (s : List Char) (h : ∀ c ∈ s, isPyWhite c = false) :
    pyStrip (s ++ [' ']) = s := by
  cases s with
  | nil => rfl
  | cons c rest =>
    have hc : isPyWhite c = false := h c (List.mem_cons_self c rest)
    have hrest : ∀ x ∈ rest ++ [' '], x = ' ' ∨ isPyWhite x = false := by
      intro x hx
      rcases List.mem_append.mp hx with hx | hx
      · exact Or.inr (h x (List.mem_cons_of_mem _ hx))
      · simp at hx; exact Or.inl hx
    unfold pyStrip
    have h1 : ((c :: rest) ++ [' ']).dropWhile isPyWhite = (c :: rest) ++ [' '] := by
      simp [List.dropWhile_cons, hc]
    rw [h1]
    have h2 : ((c :: rest) ++ [' ']).reverse = ' ' :: (c :: rest).reverse := by
      simp
    rw [h2]
    have h3 : (' ' :: (c :: rest).reverse).dropWhile isPyWhite =
        (c :: rest).reverse.dropWhile isPyWhite := by
      simp [List.dropWhile_cons, isPyWhite]
    rw [h3, dropWhile_eq_self_of _ _ (fun x hx => h x (List.mem_reverse.mp hx)),
        List.reverse_reverse]

/-- Scanning past characters that cannot start the pattern leaves them
unchanged and consumes one unit of fuel each. -/
theorem pyReplaceGo_skip (f : Char) (ps rep : List Char) :
    ∀ (s1 s2 : List Char) (m : ℕ), (∀ c ∈ s1, c ≠ f) →
      pyReplaceGo (f :: ps) rep (s1.length + m) (s1 ++ s2) =
        s1 ++ pyReplaceGo (f :: ps) rep m s2 := by
  intro s1
  induction s1 with
  | nil => intro s2 m h; simp
  | cons c rest ih =>
    intro s2 m h
    have hcf : c ≠ f := h c (List.mem_cons_self c rest)
    have hpre : (f :: ps).isPrefixOf (c :: (rest ++ s2)) = false := by
      simp only [List.isPrefixOf, Bool.and_eq_false_iff]
      left
      simpa using (Ne.symm hcf)
    have harg : (c :: rest).length + m = rest.length + m + 1 := by
      simp only [List.length_cons]; omega
    rw [harg]
    calc pyReplaceGo (f :: ps) rep (rest.length + m + 1) ((c :: rest) ++ s2)
        = c :: pyReplaceGo (f :: ps) rep (rest.length + m) (rest ++ s2) := by
          simp only [List.cons_append, pyReplaceGo, List.append_eq, hpre,
            Bool.false_eq_true, if_false]
      _ = c :: (rest ++ pyReplaceGo (f :: ps) rep m s2) := by
          rw [ih s2 m fun x hx => h x (List.mem_cons_of_mem _ hx)]
      _ = (c :: rest) ++ pyReplaceGo (f :: ps) rep m s2 := rfl

/-- A match at the head of the remaining input is replaced; with the whole
pattern as remaining input, the replacement is the final output. -/
theorem pyReplaceGo_pat (f : Char) (ps rep : List Char) (m : ℕ) :
    pyReplaceGo (f :: ps) rep (m + 1) (f :: ps) = rep := by
  have hpre : (f :: ps).isPrefixOf (f :: ps) = true := by
    induction ps with
    | nil => simp [List.isPrefixOf]
    | cons x xs ih =>
      simp only [List.isPrefixOf, Bool.and_eq_true, beq_self_eq_true, true_and] at ih ⊢
      exact ih
  have hdrop : (f :: ps).drop (f :: ps).length = [] := List.drop_length _
  simp only [pyReplaceGo, hpre, if_true, hdrop]
  cases m <;> simp [pyReplaceGo]

/-- Replacing a pattern occurring exactly as the suffix removes it (the
prefix cannot start the pattern). -/
theorem pyReplace_suffix (s1 : List Char) (f : Char) (ps rep : List Char)
    (h : ∀ c ∈ s1, c ≠ f) :
    pyReplace (s1 ++ (f :: ps)) (f :: ps) rep = s1 ++ rep := by
  unfold pyReplace
  rw [if_neg (by simp)]
  have hlen : (s1 ++ (f :: ps)).length = s1.length + (ps.length + 1) := by
    simp
  rw [hlen, pyReplaceGo_skip f ps rep s1 (f :: ps) (ps.length + 1) h,
      pyReplaceGo_pat]

/-- Replacing a pattern that cannot occur does nothing. -/
theorem pyReplace_no_occurrence (s : List Char) (f : Char) (ps rep : List Char)
    (h : ∀ c ∈ s, c ≠ f) :
    pyReplace s (f :: ps) rep = s := by
  unfold pyReplace
  rw [if_neg (by simp)]
  have hgo := pyReplaceGo_skip f ps rep s [] 0 h
  have h0 : pyReplaceGo (f :: ps) rep 0 [] = [] := rfl
  simpa [h0] using hgo

/-- `contains` is false when the element is absent. -/
theorem contains_eq_false_of (l : List Char) (a : Char) (h : ∀ c ∈ l, c ≠ a) :
    l.contains a = false := by
  cases he : l.elem a with
  | false => exact he
  | true => exact absurd (List.elem_iff.mp he) (fun hm => h a hm rfl)

/-- `contains` is true on a member. -/
theorem contains_eq_true_of_mem (l : List Char) (a : Char) (h : a ∈ l) :
    l.contains a = true :=
  List.elem_iff.mpr h

/-- A run of digits followed by a non-digit, non-underscore rest is consumed
exactly. -/
theorem udigitsAfter_digits (D r : List Char)
    (hD : ∀ c ∈ D, isDigitChar c = true)
    (hr : ∀ x rest, r = x :: rest → isDigitChar x = false ∧ x ≠ '_') :
    udigitsAfter (D ++ r) = (D, r) := by
  induction D with
  | nil =>
    cases r with
    | nil => rfl
    | cons x rest =>
      obtain ⟨hx1, hx2⟩ := hr x rest rfl
      unfold udigitsAfter
      simp [hx1, hx2]
  | cons c restD ih =>
    have hc := hD c (List.mem_cons_self c restD)
    have hih := ih fun x hx => hD x (List.mem_cons_of_mem _ hx)
    rw [List.cons_append]
    unfold udigitsAfter
    simp [hc, hih]

/-- `udigits` on a nonempty digit run followed by a stopper. -/
theorem udigits_digits (D r : List Char) (hne : D ≠ [])
    (hD : ∀ c ∈ D, isDigitChar c = true)
    (hr : ∀ x rest, r = x :: rest → isDigitChar x = false ∧ x ≠ '_') :
    udigits (D ++ r) = (D, r) := by
  cases D with
  | nil => exact absurd rfl hne
  | cons c restD =>
    have hc := hD c (List.mem_cons_self c restD)
    have h := udigitsAfter_digits restD r (fun x hx => hD x (List.mem_cons_of_mem _ hx)) hr
    rw [List.cons_append]
    unfold udigits
    simp [hc, h]


/-- `parseDecimalParts` on a plain numeral `I[.F]` yields the mantissa and
the decimal shift `-|F|`. -/
theorem parseDecimalParts_simple (I F : List Char) (hI : I ≠ [])
    (hDI : ∀ c ∈ I, isDigitChar c = true)
    (hDF : ∀ c ∈ F, isDigitChar c = true) :
    parseDecimalParts (simpleDecimal I F) =
      some (digitsVal (I ++ F), -(F.length : ℤ)) := by
  cases F with
  | nil =>
    have h2 : udigits (I ++ []) = (I, []) :=
      udigits_digits I [] hI hDI (by intro x rest hx; cases hx)
    have h1 : simpleDecimal I [] = I ++ [] := by simp [simpleDecimal]
    rw [h1]
    simp only [parseDecimalParts, h2]
    rw [if_neg (by simp [hI])]
    simp
  | cons x F' =>
    have h1 : simpleDecimal I (x :: F') = I ++ ('.' :: (x :: F')) := by
      simp [simpleDecimal]
    have h2 : udigits (I ++ ('.' :: (x :: F'))) = (I, '.' :: (x :: F')) := by
      refine udigits_digits I _ hI hDI ?_
      intro y rest hy
      injection hy with hy1 _
      subst hy1
      exact ⟨by decide, by decide⟩
    have h3 : udigits ((x :: F') ++ []) = (x :: F', []) :=
      udigits_digits (x :: F') [] (by simp) hDF (by intro y rest hy; cases hy)
    have h3' : udigits (x :: F') = (x :: F', []) := by simpa using h3
    rw [h1]
    simp only [parseDecimalParts, h2, h3']
    rw [if_neg (by simp [hI])]
    simp

/-- `parseSign` consumes nothing when the head is not a sign. -/
theorem parseSign_no_sign (c : Char) (r : List Char) (h1 : c ≠ '-') (h2 : c ≠ '+') :
    parseSign (c :: r) = (false, c :: r) := by
  unfold parseSign
  split
  · rename_i heq
    injection heq with e _
    exact absurd e h1
  · rename_i heq
    injection heq with e _
    exact absurd e h2
  · rfl

/-- Folding the definition of `simpleDecimalVal`. -/
theorem simpleDecimalVal_def (I F : List Char) :
    decValue false (digitsVal (I ++ F)) (-(F.length : ℤ)) = simpleDecimalVal I F := rfl

/-- Value of an unsigned parsed decimal, in field notation. -/
theorem decValue_false_eq (m : ℕ) (sh : ℤ) :
    decValue false m sh = (m : ℚ) * (10 : ℚ) ^ sh := by
  unfold decValue
  simp only [Bool.false_eq_true, if_false]
  split
  · rename_i hsh
    have hk : sh = -(((-sh).toNat : ℕ) : ℤ) := by omega
    rw [Rat.mkRat_eq_div]
    conv_rhs => rw [hk]
    rw [zpow_neg, zpow_natCast]
    push_cast
    rw [div_eq_mul_inv]
  · rename_i hsh
    have hk : sh = ((sh.toNat : ℕ) : ℤ) := by omega
    rw [Rat.mkRat_one]
    conv_rhs => rw [hk]
    rw [zpow_natCast]
    push_cast
    ring

/-- Unsigned decimals are nonnegative. -/
theorem decValue_false_nonneg (m : ℕ) (sh : ℤ) : 0 ≤ decValue false m sh := by
  rw [decValue_false_eq]
  positivity

/-- `float()` on a plain numeral: the exact decimal value rounded to the
nearest double. -/
theorem pyFloatOfString_simple (I F : List Char) (hI : I ≠ [])
    (hDI : ∀ c ∈ I, isDigitChar c = true) (hDF : ∀ c ∈ F, isDigitChar c = true) :
    pyFloatOfString (simpleDecimal I F) = some (roundDouble (simpleDecimalVal I F)) := by
  obtain ⟨c0, I', hI0⟩ : ∃ c0 I', I = c0 :: I' := by
    cases I with
    | nil => exact absurd rfl hI
    | cons a b => exact ⟨a, b, rfl⟩
  have hc0 : isDigitChar c0 = true := hDI c0 (by rw [hI0]; exact List.mem_cons_self c0 I')
  have hchars : ∀ c ∈ simpleDecimal I F, isDigitChar c = true ∨ c = '.' := by
    intro c hc
    unfold simpleDecimal at hc
    rcases List.mem_append.mp hc with hc | hc
    · exact Or.inl (hDI c hc)
    · by_cases hF : F.isEmpty
      · rw [if_pos hF] at hc; cases hc
      · rw [if_neg hF] at hc
        rcases List.mem_cons.mp hc with hc | hc
        · exact Or.inr hc
        · exact Or.inl (hDF c hc)
  have hlow : pyLower (simpleDecimal I F) = simpleDecimal I F := by
    refine pyLower_eq_self _ ?_
    intro c hc
    rcases hchars c hc with h | h
    · exact pyLowerChar_digit c h
    · rw [h]; rfl
  have hwhite : ∀ c ∈ simpleDecimal I F, isPyWhite c = false := by
    intro c hc
    rcases hchars c hc with h | h
    · exact isPyWhite_digit c h
    · rw [h]; rfl
  have hstrip : pyStrip (simpleDecimal I F) = simpleDecimal I F :=
    pyStrip_no_white _ hwhite
  have hsd0 : simpleDecimal I F = c0 :: (I' ++ (if F.isEmpty then [] else '.' :: F)) := by
    rw [simpleDecimal, hI0]; rfl
  have hd0 := digit_toNat c0 hc0
  have hsign : parseSign (simpleDecimal I F) = (false, simpleDecimal I F) := by
    rw [hsd0]
    refine parseSign_no_sign _ _ ?_ ?_
    · refine char_ne_of_toNat_ne _ _ ?_
      have hm : ('-').toNat = 45 := rfl
      omega
    · refine char_ne_of_toNat_ne _ _ ?_
      have hp : ('+').toNat = 43 := rfl
      omega
  have hnotlit : ∀ (x : Char) (t : List Char), isDigitChar x = false →
      simpleDecimal I F ≠ x :: t := by
    intro x t hx h
    rw [hsd0] at h
    injection h with e _
    rw [e] at hc0
    rw [hc0] at hx
    cases hx
  have hparse := parseDecimalParts_simple I F hI hDI hDF
  simp only [pyFloatOfString, hlow, hstrip, hsign]
  rw [if_neg (by
    push_neg
    exact ⟨hnotlit 'i' _ (by decide), hnotlit 'i' _ (by decide)⟩)]
  rw [if_neg (hnotlit 'n' _ (by decide))]
  rw [hparse]
  dsimp only
  rw [simpleDecimalVal_def]

/-- Facts about the characters that may precede the space in a numeral with
an optional unit suffix. -/
theorem base_char_facts (c : Char)
    (h : isDigitChar c = true ∨ c = '.' ∨ c = 'k' ∨ c = 'm') :
    pyLowerChar c = c ∧ isPyWhite c = false ∧ c ≠ 'f' ∧ c ≠ ',' := by
  rcases h with h | h | h | h
  · have hd := digit_toNat c h
    refine ⟨pyLowerChar_digit c h, isPyWhite_digit c h, ?_, ?_⟩
    · refine char_ne_of_toNat_ne _ _ ?_
      have hf : ('f').toNat = 102 := rfl
      omega
    · refine char_ne_of_toNat_ne _ _ ?_
      have hcm : (',').toNat = 44 := rfl
      omega
  · rw [h]; exact ⟨rfl, rfl, by decide, by decide⟩
  · rw [h]; exact ⟨rfl, rfl, by decide, by decide⟩
  · rw [h]; exact ⟨rfl, rfl, by decide, by decide⟩

/-- Normalisation of `_parse_follower_text` on `I[.F][k|m] followers`:
lowercasing fixes it, the word `followers` is removed, the separating space
is stripped, and there are no thousands separators, leaving the numeral with
its optional suffix. -/
theorem followerRemainder_simple (I F suf : List Char) (_hI : I ≠ [])
    (hDI : ∀ c ∈ I, isDigitChar c = true) (hDF : ∀ c ∈ F, isDigitChar c = true)
    (hsuf : ∀ c ∈ suf, c = 'k' ∨ c = 'm') :
    followerRemainder (simpleDecimal I F ++ suf ++ " followers".data) =
      simpleDecimal I F ++ suf := by
  have hXchars : ∀ c ∈ simpleDecimal I F ++ suf,
      isDigitChar c = true ∨ c = '.' ∨ c = 'k' ∨ c = 'm' := by
    intro c hc
    rcases List.mem_append.mp hc with hc | hc
    · unfold simpleDecimal at hc
      rcases List.mem_append.mp hc with hc | hc
      · exact Or.inl (hDI c hc)
      · by_cases hF : F.isEmpty
        · rw [if_pos hF] at hc; cases hc
        · rw [if_neg hF] at hc
          rcases List.mem_cons.mp hc with hc | hc
          · exact Or.inr (Or.inl hc)
          · exact Or.inl (hDF c hc)
    · rcases hsuf c hc with h | h
      · exact Or.inr (Or.inr (Or.inl h))
      · exact Or.inr (Or.inr (Or.inr h))
  have hfacts := fun c hc => base_char_facts c (hXchars c hc)
  have hlowfull : pyLower ((simpleDecimal I F ++ suf) ++ " followers".data) =
      (simpleDecimal I F ++ suf) ++ " followers".data := by
    refine pyLower_eq_self _ ?_
    intro c hc
    rcases List.mem_append.mp hc with hc | hc
    · exact (hfacts c hc).1
    · exact (by decide : ∀ x ∈ " followers".data, pyLowerChar x = x) c hc
  have hNoF : ∀ c ∈ (simpleDecimal I F ++ suf) ++ [' '], c ≠ 'f' := by
    intro c hc
    rcases List.mem_append.mp hc with hc | hc
    · exact (hfacts c hc).2.2.1
    · simp at hc; rw [hc]; decide
  have hdecomp : (simpleDecimal I F ++ suf) ++ " followers".data =
      ((simpleDecimal I F ++ suf) ++ [' ']) ++ "followers".data := by
    have hs : " followers".data = ' ' :: "followers".data := rfl
    rw [hs]
    simp
  have hrepl : pyReplace (((simpleDecimal I F ++ suf) ++ [' ']) ++ "followers".data)
      "followers".data [] = (simpleDecimal I F ++ suf) ++ [' '] := by
    have hf : "followers".data = 'f' :: "ollowers".data := rfl
    rw [hf]
    have h := pyReplace_suffix ((simpleDecimal I F ++ suf) ++ [' ']) 'f'
      "ollowers".data [] hNoF
    simpa using h
  have hstrip : pyStrip ((simpleDecimal I F ++ suf) ++ [' ']) =
      simpleDecimal I F ++ suf := by
    refine pyStrip_append_space _ ?_
    intro c hc
    exact (hfacts c hc).2.1
  have hcomma : pyReplace (simpleDecimal I F ++ suf) [','] [] =
      simpleDecimal I F ++ suf := by
    refine pyReplace_no_occurrence _ ',' [] [] ?_
    intro c hc
    exact (hfacts c hc).2.2.2
  unfold followerRemainder
  rw [hlowfull, hdecomp, hrepl, hstrip, hcomma]

/-- With no unit letter present, the multiplier is 1. -/
theorem followerMultSplit_plain (t : List Char)
    (h : ∀ c ∈ t, c ≠ 'k' ∧ c ≠ 'm') : followerMultSplit t = (1, t) := by
  unfold followerMultSplit
  have hk : t.contains 'k' = false := contains_eq_false_of t 'k' fun c hc => (h c hc).1
  have hm : t.contains 'm' = false := contains_eq_false_of t 'm' fun c hc => (h c hc).2
  simp only [hk, hm, Bool.false_eq_true, if_false]

/-- A trailing `k` selects multiplier 1000 and is removed. -/
theorem followerMultSplit_k (D : List Char) (h : ∀ c ∈ D, c ≠ 'k' ∧ c ≠ 'm') :
    followerMultSplit (D ++ ['k']) = (1000, D) := by
  unfold followerMultSplit
  have hk : (D ++ ['k']).contains 'k' = true :=
    contains_eq_true_of_mem _ _ (by simp)
  have hrem : pyReplace (D ++ ['k']) ['k'] [] = D := by
    have h2 := pyReplace_suffix D 'k' [] [] fun c hc => (h c hc).1
    simpa using h2
  simp only [hk, if_true, hrem]

/-- A trailing `m` (with no `k` anywhere) selects multiplier 1000000 and is
removed. -/
theorem followerMultSplit_m (D : List Char) (h : ∀ c ∈ D, c ≠ 'k' ∧ c ≠ 'm') :
    followerMultSplit (D ++ ['m']) = (1000000, D) := by
  unfold followerMultSplit
  have hnk : (D ++ ['m']).contains 'k' = false := by
    refine contains_eq_false_of _ _ ?_
    intro c hc
    rcases List.mem_append.mp hc with hc | hc
    · exact (h c hc).1
    · simp at hc; rw [hc]; decide
  have hm : (D ++ ['m']).contains 'm' = true :=
    contains_eq_true_of_mem _ _ (by simp)
  have hrem : pyReplace (D ++ ['m']) ['m'] [] = D := by
    have h2 := pyReplace_suffix D 'm' [] [] fun c hc => (h c hc).2
    simpa using h2
  simp only [hnk, Bool.false_eq_true, if_false, hm, if_true, hrem]

/-- Digits are not unit letters. -/
theorem digit_ne_km (c : Char) (h : isDigitChar c = true) : c ≠ 'k' ∧ c ≠ 'm' := by
  have hd := digit_toNat c h
  constructor
  · refine char_ne_of_toNat_ne _ _ ?_
    have hk : ('k').toNat = 107 := rfl
    omega
  · refine char_ne_of_toNat_ne _ _ ?_
    have hm : ('m').toNat = 109 := rfl
    omega

/-- The characters of a plain numeral. -/
theorem simpleDecimal_chars (I F : List Char)
    (hDI : ∀ c ∈ I, isDigitChar c = true) (hDF : ∀ c ∈ F, isDigitChar c = true) :
    ∀ c ∈ simpleDecimal I F, isDigitChar c = true ∨ c = '.' := by
  intro c hc
  unfold simpleDecimal at hc
  rcases List.mem_append.mp hc with hc | hc
  · exact Or.inl (hDI c hc)
  · by_cases hF : F.isEmpty
    · rw [if_pos hF] at hc; cases hc
    · rw [if_neg hF] at hc
      rcases List.mem_cons.mp hc with hc | hc
      · exact Or.inr hc
      · exact Or.inl (hDF c hc)

/-- Full evaluation of `_parse_follower_text` on a well-formed decimal
numeral with an optional trailing unit suffix: the normalisation pipeline
reduces the call to `int(float(numeral) * multiplier)` in the double model,
with multiplier 1, 1000 for `k`, 1000000 for `m`. -/
theorem parse_follower_general (I F : List Char) (hI : I ≠ [])
    (hDI : ∀ c ∈ I, isDigitChar c = true) (hDF : ∀ c ∈ F, isDigitChar c = true) :
    parse_follower_text (String.mk (simpleDecimal I F ++ " followers".data)) =
      pyIntCaught (pyMulPos (roundDouble (simpleDecimalVal I F)) 1)
    ∧ parse_follower_text (String.mk (simpleDecimal I F ++ ['k'] ++ " followers".data)) =
      pyIntCaught (pyMulPos (roundDouble (simpleDecimalVal I F)) 1000)
    ∧ parse_follower_text (String.mk (simpleDecimal I F ++ ['m'] ++ " followers".data)) =
      pyIntCaught (pyMulPos (roundDouble (simpleDecimalVal I F)) 1000000) := by
  have hnokm : ∀ c ∈ simpleDecimal I F, c ≠ 'k' ∧ c ≠ 'm' := by
    intro c hc
    rcases simpleDecimal_chars I F hDI hDF c hc with h | h
    · exact digit_ne_km c h
    · rw [h]; exact ⟨by decide, by decide⟩
  have hfl := pyFloatOfString_simple I F hI hDI hDF
  have hend : ∀ f : PyFloat,
      (match pyIntOfFloat f with
       | .ok n => Except.ok (some n)
       | .error .valueError => Except.ok (none : Option ℤ)
       | .error e => Except.error e) = pyIntCaught f := by
    intro f
    cases f <;> rfl
  refine ⟨?_, ?_, ?_⟩
  · have hrem : followerRemainder (simpleDecimal I F ++ " followers".data) =
        simpleDecimal I F := by
      have h := followerRemainder_simple I F [] hI hDI hDF (by intro c hc; cases hc)
      simpa using h
    have hms := followerMultSplit_plain (simpleDecimal I F) hnokm
    simp only [parse_follower_text]
    have hrem2 : followerRemainder
        (simpleDecimal I F ++ [' ', 'f', 'o', 'l', 'l', 'o', 'w', 'e', 'r', 's']) =
        simpleDecimal I F := hrem
    rw [hrem2, hms]
    dsimp only
    rw [hfl]
    dsimp only
    exact hend _
  · have hrem := followerRemainder_simple I F ['k'] hI hDI hDF (by decide)
    have hms := followerMultSplit_k (simpleDecimal I F) hnokm
    simp only [parse_follower_text]
    have hrem2 : followerRemainder
        (simpleDecimal I F ++ ['k'] ++ [' ', 'f', 'o', 'l', 'l', 'o', 'w', 'e', 'r', 's']) =
        simpleDecimal I F ++ ['k'] := hrem
    rw [hrem2, hms]
    dsimp only
    rw [hfl]
    dsimp only
    exact hend _
  · have hrem := followerRemainder_simple I F ['m'] hI hDI hDF (by decide)
    have hms := followerMultSplit_m (simpleDecimal I F) hnokm
    simp only [parse_follower_text]
    have hrem2 : followerRemainder
        (simpleDecimal I F ++ ['m'] ++ [' ', 'f', 'o', 'l', 'l', 'o', 'w', 'e', 'r', 's']) =
        simpleDecimal I F ++ ['m'] := hrem
    rw [hrem2, hms]
    dsimp only
    rw [hfl]
    dsimp only
    exact hend _

set_option maxRecDepth 400000 in
/-- C1: `_parse_follower_text` lowercases, strips the word `followers` and
thousands separators, and interprets a trailing unit suffix — `k` multiplies
the parsed number by 1000, `m` by 1000000, no suffix leaves it alone, the
product being the rounded double product and the result its truncation; in
particular the four quoted examples evaluate as specified. -/
theorem parse_follower_text_spec :
    parse_follower_text "1.2K followers" = .ok (some 1200)
    ∧ parse_follower_text "3M followers" = .ok (some 3000000)
    ∧ parse_follower_text "12,345 followers" = .ok (some 12345)
    ∧ parse_follower_text "abc followers" = .ok none
    ∧ (∀ I F : List Char, I ≠ [] → (∀ c ∈ I, isDigitChar c = true) →
        (∀ c ∈ F, isDigitChar c = true) →
        parse_follower_text (String.mk (simpleDecimal I F ++ " followers".data)) =
          pyIntCaught (pyMulPos (roundDouble (simpleDecimalVal I F)) 1)
        ∧ parse_follower_text
            (String.mk (simpleDecimal I F ++ ['k'] ++ " followers".data)) =
          pyIntCaught (pyMulPos (roundDouble (simpleDecimalVal I F)) 1000)
        ∧ parse_follower_text
            (String.mk (simpleDecimal I F ++ ['m'] ++ " followers".data)) =
          pyIntCaught (pyMulPos (roundDouble (simpleDecimalVal I F)) 1000000)) :=
  ⟨by decide, by decide, by decide, by decide,
   fun I F hI hDI hDF => parse_follower_general I F hI hDI hDF⟩

set_option maxRecDepth 400000 in
/-- Witness for C1 at the numeral `42.5` with suffix `k`: every hypothesis
holds, the suffixed parse is the rounded product with multiplier 1000, and
that product truncates to 42500. -/
theorem parse_follower_text_spec_witness :
    ((['4', '2'] : List Char) ≠ []
    ∧ (∀ c ∈ (['4', '2'] : List Char), isDigitChar c = true)
    ∧ (∀ c ∈ (['5'] : List Char), isDigitChar c = true)
    ∧ parse_follower_text
        (String.mk (simpleDecimal ['4', '2'] ['5'] ++ ['k'] ++ " followers".data)) =
      pyIntCaught (pyMulPos (roundDouble (simpleDecimalVal ['4', '2'] ['5'])) 1000))
    ∧ pyIntCaught (pyMulPos (roundDouble (simpleDecimalVal ['4', '2'] ['5'])) 1000) =
      .ok (some 42500) :=
  ⟨⟨by decide, by decide, by decide,
    (parse_follower_text_spec.2.2.2.2 ['4', '2'] ['5'] (by decide) (by decide)
      (by decide)).2.1⟩,
   by decide⟩
